import Mathlib

/-!
Shallow embedding of the `problem` Go package (src/problem.go): an RFC-7807
style problem-details value.  A `Problem` holds a reference to a string-keyed
field map plus an optional wrapped cause error.  Go map reference semantics
are modelled by a `Store` of field maps addressed by natural-number
references, so that copying versus aliasing of maps is observable.

External collaborators are modelled per their contracts:
* the JSON codec (`encoding/json`) is a black box; serialized bytes are the
  abstract type `JBytes` (a JSON object carrying the field map, the literal
  `null`, or a non-object/malformed input);
* the HTTP response writer is a sink recording headers, status-line writes
  and body writes, with a configurable write failure;
* Go `error` values are `GoError` (identity, message, optional wrapped
  cause), and `errors.Is` is `errorsIs`.
-/

namespace Problems

/-- Values stored in the field map: the JSON-compatible subset of Go `any`
that this package puts into `map[string]any` (strings, Go `int`s, booleans,
JSON null). -/
inductive GoVal where
  | vnull
  | vbool (b : Bool)
  | vint (n : Int)
  | vstr (s : String)
deriving DecidableEq, Repr

/-- Go `error` values: either a leaf error (as from `errors.New`, identified
by an id so distinct errors with equal messages stay distinct) or an error
wrapping a cause (so `errors.Is` chain walking is meaningful). -/
inductive GoError where
  | base (id : Nat) (msg : String)
  | wrapped (id : Nat) (msg : String) (cause : GoError)
deriving DecidableEq, Repr

/-- Message of an error, the result of Go's `err.Error()`. -/
def GoError.msg : GoError → String
  | .base _ m => m
  | .wrapped _ m _ => m

/-- Unwrap chain of an error: the error followed by the chain of its cause. -/
def chain : GoError → List GoError
  | .base i m => [.base i m]
  | .wrapped i m c => .wrapped i m c :: chain c

/-- Chain walking of Go's `errors.Is` for a non-nil error and non-nil
target: compare at each step, else unwrap. -/
def chainIs : GoError → GoError → Bool
  | .base i m, t => GoError.base i m == t
  | .wrapped i m c, t => (GoError.wrapped i m c == t) || chainIs c t

/-- Go's `errors.Is(err, target)`: if either is nil the result is their
pointer equality, otherwise walk the unwrap chain of `err`. -/
def errorsIs : Option GoError → Option GoError → Bool
  | none, none => true
  | none, some _ => false
  | some _, none => false
  | some e, some t => chainIs e t

/-- Field map contents: Go's `map[string]any`, as an association list. -/
abbrev FieldMap := List (String × GoVal)

/-- Set a key in a field map (Go `m[k] = v`): replace the first binding of
the key, or append a fresh binding. -/
def setKey : FieldMap → String → GoVal → FieldMap
  | [], k, v => [(k, v)]
  | (k', v') :: rest, k, v =>
      if k' = k then (k, v) :: rest else (k', v') :: setKey rest k v

/-- Look a key up in a field map (Go `v, ok := m[k]`; `none` is `ok=false`). -/
def lookupKey : FieldMap → String → Option GoVal
  | [], _ => none
  | (k', v') :: rest, k => if k' = k then some v' else lookupKey rest k

/-- Set a sequence of key/value pairs left to right. -/
def setKeys : FieldMap → List (String × GoVal) → FieldMap
  | m, [] => m
  | m, (k, v) :: rest => setKeys (setKey m k v) rest

/-- Heap of allocated Go maps; a map reference is an index into `maps`. -/
structure Store where
  maps : List FieldMap
deriving DecidableEq, Repr

/-- Read the map at index `r` of a list of maps (dangling references read as
empty; Go programs never produce them). -/
def listGet : List FieldMap → Nat → FieldMap
  | [], _ => []
  | m :: _, 0 => m
  | _ :: rest, r + 1 => listGet rest r

/-- Overwrite the map at index `r` (no-op when out of range). -/
def listSet : List FieldMap → Nat → FieldMap → List FieldMap
  | [], _, _ => []
  | _ :: rest, 0, m => m :: rest
  | x :: rest, r + 1, m => x :: listSet rest r m

/-- Contents of the map referenced by `r`. -/
def Store.get (st : Store) (r : Nat) : FieldMap := listGet st.maps r

/-- Mutate the map referenced by `r`. -/
def Store.set (st : Store) (r : Nat) (m : FieldMap) : Store :=
  ⟨listSet st.maps r m⟩

/-- The `Problem` struct: `data` is a reference to the field map (`none`
models a nil Go map) and `cause` the wrapped error. -/
structure Problem where
  data : Option Nat
  cause : Option GoError
deriving DecidableEq, Repr

/-- Serialized JSON bytes, abstractly: the codec is external, so bytes are
identified with what they decode to — a JSON object carrying a field map,
the literal `null`, or any non-object/malformed input (tagged). -/
inductive JBytes where
  | null
  | obj (m : FieldMap)
  | notObj (tag : Nat)
deriving DecidableEq, Repr

/-- Text form of a field value. -/
def renderVal : GoVal → String
  | .vnull => "null"
  | .vbool true => "true"
  | .vbool false => "false"
  | .vint n => toString n
  | .vstr s => "\"" ++ s ++ "\""

/-- Text form of the entries of a JSON object. -/
def renderEntries : FieldMap → String
  | [] => ""
  | [(k, v)] => "\"" ++ k ++ "\":" ++ renderVal v
  | (k, v) :: rest => "\"" ++ k ++ "\":" ++ renderVal v ++ "," ++ renderEntries rest

/-- Text form of serialized bytes (Go `string(b)`). -/
def render : JBytes → String
  | .null => "null"
  | .obj m => "\x7b" ++ renderEntries m ++ "\x7d"
  | .notObj t => "?" ++ toString t

/-- Runtime faults: calling a method on a nil error interface. -/
inductive GoPanic where
  | nilErrorMethod
deriving DecidableEq, Repr

/-- The media type constant `MediaType`. -/
def MediaType : String := "application/problem+json"

/-- The functional options of the package (the closures produced by `Type`,
`Title`, `Status`, `Detail`, `Instance`, `Ext`, `Wrap`, `WrapPublic`; `inst`
stands for the `Instance` option and `typ` for `Type`, whose Go names are
Lean keywords).  `Custom` is the alias `Custom = Ext` below. -/
inductive Opt where
  | typ (uri : String)
  | title (t : String)
  | status (n : Int)
  | detail (d : String)
  | inst (uri : String)
  | ext (k : String) (v : GoVal)
  | wrap (e : Option GoError)
  | wrapPublic (e : Option GoError)
deriving DecidableEq, Repr

/-- The alias `func Custom(key, value) Option { return Ext(key, value) }`. -/
def Custom (k : String) (v : GoVal) : Opt := .ext k v

/-- The `ensureMap` helper: lazily allocate the field map; returns the
(possibly updated) struct, store, and the live map reference. -/
def ensureMap (p : Problem) (st : Store) : Problem × Store × Nat :=
  match p.data with
  | some r => (p, st, r)
  | none => ({ p with data := some st.maps.length }, ⟨st.maps ++ [[]]⟩, st.maps.length)

/-- Body shared by the field-setting options: `ensureMap(p); p.data[k] = v`. -/
def setField (p : Problem) (st : Store) (k : String) (v : GoVal) : Problem × Store :=
  match ensureMap p st with
  | (q, st1, r) => (q, st1.set r (setKey (st1.get r) k v))

/-- Apply one option to a problem (the `opt.apply(p)` call).  `WrapPublic`
with a nil error faults: it evaluates `err.Error()` on a nil interface. -/
def applyOpt (o : Opt) (p : Problem) (st : Store) : Except GoPanic (Problem × Store) :=
  match o with
  | .typ u => .ok (setField p st "type" (.vstr u))
  | .title t => .ok (setField p st "title" (.vstr t))
  | .status n => .ok (setField p st "status" (.vint n))
  | .detail d => .ok (setField p st "detail" (.vstr d))
  | .inst u => .ok (setField p st "instance" (.vstr u))
  | .ext k v => .ok (setField p st k v)
  | .wrap e => .ok ({ p with cause := e }, st)
  | .wrapPublic e =>
      match e with
      | none => .error .nilErrorMethod
      | some err => .ok (setField { p with cause := some err } st "cause" (.vstr err.msg))

/-- Apply a sequence of options left to right, skipping nil options (the
`if opt != nil` guard shared by `New` and `Append`). -/
def applyOpts : List (Option Opt) → Problem → Store → Except GoPanic (Problem × Store)
  | [], p, st => .ok (p, st)
  | none :: rest, p, st => applyOpts rest p st
  | some o :: rest, p, st =>
      match applyOpt o p st with
      | .error e => .error e
      | .ok q => applyOpts rest q.1 q.2

/-- The constructor `New`: allocate a fresh empty field map, apply the
options in order. -/
def New (opts : List (Option Opt)) (st : Store) : Except GoPanic (Problem × Store) :=
  applyOpts opts { data := some st.maps.length, cause := none } ⟨st.maps ++ [[]]⟩

/-- The method `Append` on a possibly nil receiver: on nil it behaves as
`New`; otherwise it lazily initializes the map and applies the options. -/
def Problem.Append (p : Option Problem) (opts : List (Option Opt)) (st : Store) :
    Except GoPanic (Problem × Store) :=
  match p with
  | none => New opts st
  | some q =>
      match ensureMap q st with
      | (q1, st1, _) => applyOpts opts q1 st1

/-- The method `Data`: a defensive copy of the field map (`maps.Copy` into a
freshly allocated map), or a freshly allocated empty map when the receiver
or its map is nil.  Returns the reference to the new map and the store. -/
def Problem.Data (p : Option Problem) (st : Store) : Nat × Store :=
  match p with
  | none => (st.maps.length, ⟨st.maps ++ [[]]⟩)
  | some q =>
      match q.data with
      | none => (st.maps.length, ⟨st.maps ++ [[]]⟩)
      | some r => (st.maps.length, ⟨st.maps ++ [st.get r]⟩)

/-- The method `Get`: value and presence of a key; `none` is Go's
`(nil, false)`. -/
def Problem.Get (p : Option Problem) (st : Store) (k : String) : Option GoVal :=
  match p with
  | none => none
  | some q =>
      match q.data with
      | none => none
      | some r => lookupKey (st.get r) k

/-- The method `MarshalJSON`: `null` bytes on a nil receiver, empty-object
bytes on a nil map, else the encoded field map.  Never errors. -/
def Problem.MarshalJSON (p : Option Problem) (st : Store) : JBytes × Option GoError :=
  match p with
  | none => (.null, none)
  | some q =>
      match q.data with
      | none => (.obj [], none)
      | some r => (.obj (st.get r), none)

/-- The method `JSON`: `b, _ := json.Marshal(p)` (the error is swallowed). -/
def Problem.JSON (p : Option Problem) (st : Store) : JBytes :=
  (Problem.MarshalJSON p st).1

/-- The method `JSONString`: `string(p.JSON())`. -/
def Problem.JSONString (p : Option Problem) (st : Store) : String :=
  render (Problem.JSON p st)

/-- The method `Error`: the JSON string form. -/
def Problem.Error (p : Option Problem) (st : Store) : String :=
  Problem.JSONString p st

/-- The method `Unwrap`: the wrapped cause, nil on a nil receiver. -/
def Problem.Unwrap (p : Option Problem) : Option GoError :=
  match p with
  | none => none
  | some q => q.cause

/-- The method `Is`: a nil receiver matches only a nil target, otherwise
delegate to `errors.Is` on the wrapped cause. -/
def Problem.Is (p : Option Problem) (t : Option GoError) : Bool :=
  match p with
  | none => decide (t = none)
  | some q => errorsIs q.cause t

/-- The error returned by `UnmarshalJSON` on a nil receiver
(`errors.New("problem: UnmarshalJSON on nil *Problem")`). -/
def nilUnmarshalError : GoError := .base 900 "problem: UnmarshalJSON on nil *Problem"

/-- The codec's error for input that is not a valid JSON object, propagated
unchanged by `UnmarshalJSON`. -/
def malformedJSONError : GoError := .base 901 "invalid JSON input"

/-- The method `UnmarshalJSON`: reject a nil receiver; else lazily allocate
the map, delete every existing key, then decode the bytes into the map
(`json.Unmarshal` merges an object into the now-empty map, sets the map to
nil on the literal `null`, and leaves it untouched on a non-object input,
returning the codec error). -/
def Problem.UnmarshalJSON (p : Option Problem) (st : Store) (b : JBytes) :
    Option Problem × Store × Option GoError :=
  match p with
  | none => (none, st, some nilUnmarshalError)
  | some q =>
      match ensureMap q st with
      | (q1, st1, r) =>
          let st2 := st1.set r []
          match b with
          | .obj m => (some q1, st2.set r (setKeys (st2.get r) m), none)
          | .null => (some { q1 with data := none }, st2, none)
          | .notObj _ => (some q1, st2, some malformedJSONError)

/-- The HTTP response sink: recorded headers (with set-replaces semantics
via `setKey`-like update), the sequence of status-line writes, the body
chunks written, and an optional configured failure of body writes. -/
structure Sink where
  headers : List (String × String)
  codes : List Int
  body : List JBytes
  failWrite : Option GoError
deriving DecidableEq, Repr

/-- Header update with replace semantics (`w.Header().Set(k, v)`). -/
def setHeaderList : List (String × String) → String → String → List (String × String)
  | [], k, v => [(k, v)]
  | (k', v') :: rest, k, v =>
      if k' = k then (k, v) :: rest else (k', v') :: setHeaderList rest k v

/-- Set a header on the sink. -/
def Sink.setHeader (w : Sink) (k v : String) : Sink :=
  { w with headers := setHeaderList w.headers k v }

/-- Record a status-line write (`w.WriteHeader(code)`). -/
def Sink.writeHeader (w : Sink) (c : Int) : Sink :=
  { w with codes := w.codes ++ [c] }

/-- Body write (`w.Write(b)`): on the configured failure return the error
and a zero count; otherwise append the chunk and return its byte length. -/
def Sink.writeBody (w : Sink) (b : JBytes) : Sink × Int × Option GoError :=
  match w.failWrite with
  | some e => (w, 0, some e)
  | none => ({ w with body := w.body ++ [b] }, (render b).length, none)

/-- The helper `asStatusCode`: a Go `(int, bool)` type switch. -/
def asStatusCode : GoVal → Int × Bool
  | .vint n => (n, true)
  | _ => (0, false)

/-- The method `WriteHeaderTo`: set the content type; if the receiver and
its map are non-nil and the `status` field holds an integer, write it as
the status line; otherwise do nothing further. -/
def Problem.WriteHeaderTo (p : Option Problem) (st : Store) (w : Sink) : Sink :=
  let w1 := w.setHeader "Content-Type" MediaType
  match p with
  | none => w1
  | some q =>
      match q.data with
      | none => w1
      | some r =>
          match lookupKey (st.get r) "status" with
          | some v =>
              match asStatusCode v with
              | (code, true) => w1.writeHeader code
              | (_, false) => w1
          | none => w1

/-- The shared helper `write`: set the content type, pick the status code
(the integer `status` field if present, else the fallback, else 500 when
the fallback is zero), write the status line once, then write the JSON
body, returning the sink's count and error. -/
def Problem.write (p : Option Problem) (st : Store) (w : Sink) (fallback : Int) :
    Sink × Int × Option GoError :=
  let w1 := w.setHeader "Content-Type" MediaType
  let c0 : Int := if fallback = 0 then 500 else fallback
  let code : Int :=
    match p with
    | none => c0
    | some q =>
        match q.data with
        | none => c0
        | some r =>
            match lookupKey (st.get r) "status" with
            | some (.vint n) => n
            | _ => c0
  let w2 := w1.writeHeader code
  w2.writeBody (Problem.JSON p st)

/-- The method `WriteTo`: `p.write(w, http.StatusInternalServerError)`. -/
def Problem.WriteTo (p : Option Problem) (st : Store) (w : Sink) :
    Sink × Int × Option GoError :=
  Problem.write p st w 500

/-- The method `With`: `p.Append(Ext(key, value))`. -/
def Problem.With (p : Option Problem) (st : Store) (k : String) (v : GoVal) :
    Except GoPanic (Problem × Store) :=
  Problem.Append p [some (.ext k v)] st

/-- Key and value written by a field-setting option (`none` on the wrapping
options, which do not target a field of their own except `WrapPublic`,
whose `cause` write is treated separately by the claims). -/
def Opt.kv : Opt → Option (String × GoVal)
  | .typ u => some ("type", .vstr u)
  | .title t => some ("title", .vstr t)
  | .status n => some ("status", .vint n)
  | .detail d => some ("detail", .vstr d)
  | .inst u => some ("instance", .vstr u)
  | .ext k v => some (k, v)
  | .wrap _ => none
  | .wrapPublic _ => none

/-- Whether an option is one of the field-setting options. -/
def isFieldOpt (o : Opt) : Bool := o.kv.isSome

/-- Value of the last pair in `kvs` whose key is `k`. -/
def lastVal (kvs : List (String × GoVal)) (k : String) : Option GoVal :=
  ((kvs.filter (fun e => e.1 == k)).getLast?).map Prod.snd

/-- Well-formedness of a problem reference against a store: a live data
reference points inside the store (true of every problem a Go execution can
produce). -/
def wfRef (p : Option Problem) (st : Store) : Bool :=
  match p with
  | none => true
  | some q =>
      match q.data with
      | none => true
      | some r => decide (r < st.maps.length)

/-! Basic lemmas about the store primitives. -/

theorem length_listSet (l : List FieldMap) (r : Nat) (m : FieldMap) :
    (listSet l r m).length = l.length := by
  induction l generalizing r with
  | nil => rfl
  | cons x xs ih =>
    cases r with
    | zero => rfl
    | succ r => simp [listSet, ih]

theorem listGet_listSet_self (l : List FieldMap) (r : Nat) (m : FieldMap)
    (h : r < l.length) : listGet (listSet l r m) r = m := by
  induction l generalizing r with
  | nil => simp at h
  | cons x xs ih =>
    cases r with
    | zero => rfl
    | succ r => exact ih r (by simpa using h)

theorem listGet_listSet_ne (l : List FieldMap) (r r' : Nat) (m : FieldMap)
    (h : r ≠ r') : listGet (listSet l r m) r' = listGet l r' := by
  induction l generalizing r r' with
  | nil => rfl
  | cons x xs ih =>
    cases r with
    | zero =>
      cases r' with
      | zero => exact absurd rfl h
      | succ r' => rfl
    | succ r =>
      cases r' with
      | zero => rfl
      | succ r' => exact ih r r' (fun hc => h (by simp [hc]))

theorem listSet_listSet (l : List FieldMap) (r : Nat) (a b : FieldMap) :
    listSet (listSet l r a) r b = listSet l r b := by
  induction l generalizing r with
  | nil => rfl
  | cons x xs ih =>
    cases r with
    | zero => rfl
    | succ r => simp [listSet, ih]

theorem listSet_self (l : List FieldMap) (r : Nat) (h : r < l.length) :
    listSet l r (listGet l r) = l := by
  induction l generalizing r with
  | nil => rfl
  | cons x xs ih =>
    cases r with
    | zero => rfl
    | succ r => simp [listSet, listGet, ih r (by simpa using h)]

theorem listGet_append_len (l : List FieldMap) (a : FieldMap) :
    listGet (l ++ [a]) l.length = a := by
  induction l with
  | nil => rfl
  | cons x xs ih => simpa [listGet] using ih

theorem listGet_append_lt (l : List FieldMap) (a : FieldMap) (r : Nat)
    (h : r < l.length) : listGet (l ++ [a]) r = listGet l r := by
  induction l generalizing r with
  | nil => simp at h
  | cons x xs ih =>
    cases r with
    | zero => rfl
    | succ r => exact ih r (by simpa using h)

theorem listSet_append_len (l : List FieldMap) (a b : FieldMap) :
    listSet (l ++ [a]) l.length b = l ++ [b] := by
  induction l with
  | nil => rfl
  | cons x xs ih => simpa [listSet] using ih

/-! Basic lemmas about field-map updates. -/

theorem lookupKey_setKey_self (m : FieldMap) (k : String) (v : GoVal) :
    lookupKey (setKey m k v) k = some v := by
  induction m with
  | nil => simp [setKey, lookupKey]
  | cons e rest ih =>
    by_cases h : e.1 = k
    · simp [setKey, lookupKey, h]
    · simp [setKey, lookupKey, h, ih]

theorem lookupKey_setKey_ne (m : FieldMap) (k k' : String) (v : GoVal)
    (h : k' ≠ k) : lookupKey (setKey m k v) k' = lookupKey m k' := by
  induction m with
  | nil => simp [setKey, lookupKey, Ne.symm h]
  | cons e rest ih =>
    by_cases he : e.1 = k
    · simp [setKey, lookupKey, he, Ne.symm h]
    · simp [setKey, lookupKey, he, ih]

theorem getLast?_cons {α : Type} (a : α) (l : List α) :
    (a :: l).getLast? = some (l.getLast?.getD a) := by
  induction l generalizing a with
  | nil => rfl
  | cons b t ih => rw [List.getLast?_cons_cons, ih b]; simp

theorem lookupKey_setKeys (m : FieldMap) (kvs : List (String × GoVal)) (k : String) :
    lookupKey (setKeys m kvs) k =
      match lastVal kvs k with
      | some v => some v
      | none => lookupKey m k := by
  induction kvs generalizing m with
  | nil => simp [setKeys, lastVal]
  | cons e rest ih =>
    obtain ⟨k0, v0⟩ := e
    show lookupKey (setKeys (setKey m k0 v0) rest) k = _
    rw [ih]
    by_cases hk : k0 = k
    · subst hk
      have hfil : ((k0, v0) :: rest).filter (fun e => e.1 == k0)
          = (k0, v0) :: rest.filter (fun e => e.1 == k0) := by
        simp [List.filter]
      simp only [lastVal, hfil, getLast?_cons]
      cases hrest : (rest.filter (fun e => e.1 == k0)).getLast? with
      | none => simp [lastVal, hrest, lookupKey_setKey_self]
      | some x => simp [lastVal, hrest]
    · have hb : (k0 == k) = false := by simpa using hk
      have hfil : ((k0, v0) :: rest).filter (fun e => e.1 == k)
          = rest.filter (fun e => e.1 == k) := by
        simp [List.filter_cons, hb]
      simp only [lastVal, hfil]
      cases hrest : (rest.filter (fun e => e.1 == k)).getLast? with
      | none => simp [lastVal, hrest, lookupKey_setKey_ne m k0 k v0 (Ne.symm hk)]
      | some x => simp [lastVal, hrest]

theorem setKey_append_of_not_mem (m : FieldMap) (k : String) (v : GoVal)
    (h : ∀ e ∈ m, e.1 ≠ k) : setKey m k v = m ++ [(k, v)] := by
  induction m with
  | nil => rfl
  | cons e rest ih =>
    have he : e.1 ≠ k := h e (by simp)
    simp only [setKey, he, if_false, List.cons_append, List.cons.injEq, true_and]
    exact ih (fun x hx => h x (by simp [hx]))

theorem setKeys_append_of_disjoint (m acc : FieldMap)
    (hnd : (m.map Prod.fst).Nodup)
    (hdis : ∀ e ∈ m, ∀ e' ∈ acc, e.1 ≠ e'.1) :
    setKeys acc m = acc ++ m := by
  induction m generalizing acc with
  | nil => simp [setKeys]
  | cons e rest ih =>
    obtain ⟨k0, v0⟩ := e
    show setKeys (setKey acc k0 v0) rest = acc ++ (k0, v0) :: rest
    have hset : setKey acc k0 v0 = acc ++ [(k0, v0)] :=
      setKey_append_of_not_mem acc k0 v0
        (fun e' he' => (hdis (k0, v0) (by simp) e' he').symm)
    rw [hset]
    have hnd0 : (k0 :: rest.map Prod.fst).Nodup := hnd
    have hnd' : (rest.map Prod.fst).Nodup := (List.nodup_cons.mp hnd0).2
    have hk0 : ∀ e ∈ rest, e.1 ≠ k0 := by
      intro e he hc
      exact (List.nodup_cons.mp hnd0).1 (hc ▸ List.mem_map_of_mem Prod.fst he)
    have hstep := ih (acc ++ [(k0, v0)]) hnd' (by
      intro e he e' he'
      rcases List.mem_append.mp he' with h1 | h1
      · exact hdis e (by simp [he]) e' h1
      · simp only [List.mem_singleton] at h1
        subst h1
        exact hk0 e he)
    rw [hstep, List.append_assoc]
    rfl

theorem setKeys_nil_of_nodup (m : FieldMap) (hnd : (m.map Prod.fst).Nodup) :
    setKeys [] m = m := by
  simpa using setKeys_append_of_disjoint m [] hnd (by simp)

/-! Lemmas about option application. -/

theorem Store.set_get_self (st : Store) (r : Nat) (h : r < st.maps.length) :
    st.set r (st.get r) = st := by
  cases st with
  | mk l => simp [Store.set, Store.get, listSet_self l r h]

theorem applyOpt_field (o : Opt) (k : String) (v : GoVal) (hkv : o.kv = some (k, v))
    (p : Problem) (st : Store) :
    applyOpt o p st = .ok (setField p st k v) := by
  cases o <;> simp_all [Opt.kv, applyOpt]

theorem setField_some (p : Problem) (st : Store) (r : Nat) (hd : p.data = some r)
    (k : String) (v : GoVal) :
    setField p st k v = (p, st.set r (setKey (st.get r) k v)) := by
  simp [setField, ensureMap, hd]

/-- Applying a sequence of field-setting options to a problem whose map is
live leaves the struct unchanged and folds `setKey` over the map contents. -/
theorem applyOpts_fieldOpts (opts : List Opt) (p : Problem) (r : Nat)
    (hd : p.data = some r) (hf : ∀ o ∈ opts, isFieldOpt o = true) :
    ∀ st : Store, r < st.maps.length →
      applyOpts (opts.map some) p st
        = .ok (p, st.set r (setKeys (st.get r) (opts.filterMap Opt.kv))) := by
  induction opts with
  | nil =>
    intro st hr
    simp [applyOpts, setKeys, Store.set_get_self st r hr]
  | cons o rest ih =>
    intro st hr
    have ho : isFieldOpt o = true := hf o (by simp)
    obtain ⟨⟨k0, v0⟩, hkv⟩ := Option.isSome_iff_exists.mp ho
    have happ : applyOpt o p st = .ok (p, st.set r (setKey (st.get r) k0 v0)) := by
      rw [applyOpt_field o k0 v0 hkv p st, setField_some p st r hd k0 v0]
    have hr' : r < (st.set r (setKey (st.get r) k0 v0)).maps.length := by
      simpa [Store.set, length_listSet] using hr
    have hrest := ih (fun o' ho' => hf o' (by simp [ho']))
      (st.set r (setKey (st.get r) k0 v0)) hr'
    have hget : (st.set r (setKey (st.get r) k0 v0)).get r = setKey (st.get r) k0 v0 := by
      simpa [Store.get, Store.set] using
        listGet_listSet_self st.maps r (setKey (st.get r) k0 v0) hr
    have hsets : ∀ m, (st.set r (setKey (st.get r) k0 v0)).set r m = st.set r m := by
      intro m
      simp [Store.set, listSet_listSet]
    have hfm : (o :: rest).filterMap Opt.kv = (k0, v0) :: rest.filterMap Opt.kv := by
      simp [List.filterMap_cons, hkv]
    calc applyOpts ((o :: rest).map some) p st
        = applyOpts (rest.map some) p (st.set r (setKey (st.get r) k0 v0)) := by
          simp only [List.map_cons, applyOpts, happ]
      _ = .ok (p, st.set r (setKeys (st.get r) ((o :: rest).filterMap Opt.kv))) := by
          rw [hrest, hget, hsets, hfm]
          rfl

/-- C1: for every sequence of field-setting options applied via `New` or via
`Append` on an existing instance, the final value stored under each key is
the value of the last option in the sequence targeting that key, and keys
not targeted by any option keep their previous value (absent for `New`). -/
theorem lastWriteWins (opts : List Opt) (p : Option Problem) (st : Store) (k : String)
    (hf : ∀ o ∈ opts, isFieldOpt o = true) (hwf : wfRef p st = true) :
    (Problem.Append p (opts.map some) st).toOption.map
        (fun q => Problem.Get (some q.1) q.2 k)
      = some (match lastVal (opts.filterMap Opt.kv) k with
              | some v => some v
              | none => Problem.Get p st k) := by
  have hfresh : ∀ st0 : Store, ∀ c : Option GoError,
      (applyOpts (opts.map some) ⟨some st0.maps.length, c⟩
          ⟨st0.maps ++ [[]]⟩).toOption.map (fun q => Problem.Get (some q.1) q.2 k)
        = some (match lastVal (opts.filterMap Opt.kv) k with
                | some v => some v
                | none => none) := by
    intro st0 c
    have hlen : st0.maps.length < (Store.mk (st0.maps ++ [([] : FieldMap)])).maps.length := by
      simp [Store]
    rw [applyOpts_fieldOpts opts ⟨some st0.maps.length, c⟩ st0.maps.length rfl hf
      ⟨st0.maps ++ [[]]⟩ hlen]
    have hget0 : (Store.mk (st0.maps ++ [([] : FieldMap)])).get st0.maps.length = [] := by
      simpa [Store.get] using listGet_append_len st0.maps []
    have hgetX : ∀ m : FieldMap,
        ((Store.mk (st0.maps ++ [([] : FieldMap)])).set st0.maps.length m).get st0.maps.length = m := by
      intro m
      simpa [Store.get, Store.set] using
        listGet_listSet_self (st0.maps ++ [[]]) st0.maps.length m hlen
    simp only [Except.toOption, Option.map, Problem.Get, hget0, hgetX]
    rw [lookupKey_setKeys]
    cases lastVal (opts.filterMap Opt.kv) k <;> simp [lookupKey]
  cases p with
  | none =>
    have := hfresh st none
    simp only [Problem.Append, New] at this ⊢
    rw [this]
    cases lastVal (opts.filterMap Opt.kv) k <;> simp [Problem.Get]
  | some q =>
    cases hqd : q.data with
    | none =>
      have := hfresh st q.cause
      have hens : ensureMap q st = (⟨some st.maps.length, q.cause⟩, ⟨st.maps ++ [[]]⟩, st.maps.length) := by
        simp [ensureMap, hqd]
      simp only [Problem.Append, hens]
      rw [this]
      cases lastVal (opts.filterMap Opt.kv) k <;> simp [Problem.Get, hqd]
    | some r =>
      have hr : r < st.maps.length := by
        simpa [wfRef, hqd] using hwf
      have hens : ensureMap q st = (q, st, r) := by
        simp [ensureMap, hqd]
      simp only [Problem.Append, hens]
      rw [applyOpts_fieldOpts opts q r hqd hf st hr]
      have hgetX : (st.set r (setKeys (st.get r) (opts.filterMap Opt.kv))).get r
          = setKeys (st.get r) (opts.filterMap Opt.kv) := by
        simpa [Store.get, Store.set] using
          listGet_listSet_self st.maps r (setKeys (st.get r) (opts.filterMap Opt.kv)) hr
      simp only [Except.toOption, Option.map, Problem.Get, hqd, hgetX]
      rw [lookupKey_setKeys]

/-- Witness for C1: `New(Title("a"), Title("b"))` stores `title = "b"`. -/
theorem lastWriteWins_witness :
    (∀ o ∈ [Opt.title "a", Opt.title "b"], isFieldOpt o = true) ∧
    wfRef none ⟨[]⟩ = true ∧
    (Problem.Append none ([Opt.title "a", Opt.title "b"].map some) ⟨[]⟩).toOption.map
        (fun q => Problem.Get (some q.1) q.2 "title")
      = some (match lastVal ([Opt.title "a", Opt.title "b"].filterMap Opt.kv) "title" with
              | some v => some v
              | none => Problem.Get none ⟨[]⟩ "title") :=
  ⟨by decide, by decide,
    lastWriteWins [Opt.title "a", Opt.title "b"] none ⟨[]⟩ "title" (by decide) (by decide)⟩

/-! Lemmas about deserialization. -/

theorem unmarshal_obj (q : Problem) (st : Store) (r : Nat) (m : FieldMap)
    (hd : q.data = some r) (hr : r < st.maps.length) :
    Problem.UnmarshalJSON (some q) st (.obj m) = (some q, st.set r (setKeys [] m), none) := by
  have hens : ensureMap q st = (q, st, r) := by simp [ensureMap, hd]
  have hget1 : (Store.mk (listSet st.maps r [])).get r = [] := by
    simpa [Store.get] using listGet_listSet_self st.maps r [] hr
  simp [Problem.UnmarshalJSON, hens, Store.set, hget1, listSet_listSet]

theorem unmarshal_notObj (q : Problem) (st : Store) (r : Nat) (t : Nat)
    (hd : q.data = some r) :
    Problem.UnmarshalJSON (some q) st (.notObj t)
      = (some q, st.set r [], some malformedJSONError) := by
  have hens : ensureMap q st = (q, st, r) := by simp [ensureMap, hd]
  simp [Problem.UnmarshalJSON, hens]

/-- C6: `UnmarshalJSON` on a nil receiver returns the nil-target error and
changes nothing; on a live receiver it first clears all fields and then
decodes, so that a malformed (non-object) input leaves exactly the
"fields cleared, decode failed" state (an empty field map, the codec error
returned), and an object input yields the decoded fields alone. -/
theorem unmarshalSemantics (p : Problem) (st : Store) (r : Nat) (m : FieldMap)
    (t : Nat) (b : JBytes) (hd : p.data = some r) (hr : r < st.maps.length) :
    Problem.UnmarshalJSON none st b = (none, st, some nilUnmarshalError) ∧
    Problem.UnmarshalJSON (some p) st (.notObj t)
      = (some p, st.set r [], some malformedJSONError) ∧
    Problem.UnmarshalJSON (some p) st (.obj m)
      = (some p, st.set r (setKeys [] m), none) :=
  ⟨rfl, unmarshal_notObj p st r t hd, unmarshal_obj p st r m hd hr⟩

/-- Witness for C6 at a populated single-field instance and malformed input. -/
theorem unmarshalSemantics_witness :
    (⟨some 0, none⟩ : Problem).data = some 0 ∧
    0 < (⟨[[("title", GoVal.vstr "x")]]⟩ : Store).maps.length ∧
    (Problem.UnmarshalJSON none ⟨[[("title", GoVal.vstr "x")]]⟩ .null
        = (none, ⟨[[("title", GoVal.vstr "x")]]⟩, some nilUnmarshalError) ∧
     Problem.UnmarshalJSON (some ⟨some 0, none⟩) ⟨[[("title", GoVal.vstr "x")]]⟩ (.notObj 0)
        = (some ⟨some 0, none⟩, (⟨[[("title", GoVal.vstr "x")]]⟩ : Store).set 0 [],
           some malformedJSONError) ∧
     Problem.UnmarshalJSON (some ⟨some 0, none⟩) ⟨[[("title", GoVal.vstr "x")]]⟩
          (.obj [("a", GoVal.vnull)])
        = (some ⟨some 0, none⟩,
           (⟨[[("title", GoVal.vstr "x")]]⟩ : Store).set 0 (setKeys [] [("a", GoVal.vnull)]),
           none)) :=
  ⟨rfl, by decide, unmarshalSemantics ⟨some 0, none⟩ ⟨[[("title", GoVal.vstr "x")]]⟩ 0
    [("a", GoVal.vnull)] 0 .null rfl (by decide)⟩

/-- C2: serializing an instance with `JSON()` and deserializing the bytes
into a fresh instance (`New()` then `UnmarshalJSON`) reproduces a field map
equal to the original (the hypothesis that the map holds only
JSON-compatible values is built into `GoVal`; key uniqueness is the Go map
representation invariant). -/
theorem jsonRoundTrip (p : Problem) (st : Store) (r : Nat) (st2 : Store)
    (hd : p.data = some r) (hnd : ((st.get r).map Prod.fst).Nodup) :
    New [] st2 = .ok (⟨some st2.maps.length, none⟩, ⟨st2.maps ++ [[]]⟩) ∧
    Problem.UnmarshalJSON (some ⟨some st2.maps.length, none⟩) ⟨st2.maps ++ [[]]⟩
        (Problem.JSON (some p) st)
      = (some ⟨some st2.maps.length, none⟩,
         (Store.mk (st2.maps ++ [[]])).set st2.maps.length (st.get r), none) ∧
    ((Store.mk (st2.maps ++ [[]])).set st2.maps.length (st.get r)).get st2.maps.length
      = st.get r := by
  have hL : st2.maps.length < (Store.mk (st2.maps ++ [([] : FieldMap)])).maps.length := by
    simp
  have hJSON : Problem.JSON (some p) st = .obj (st.get r) := by
    simp [Problem.JSON, Problem.MarshalJSON, hd]
  refine ⟨rfl, ?_, ?_⟩
  · rw [hJSON,
      unmarshal_obj ⟨some st2.maps.length, none⟩ ⟨st2.maps ++ [[]]⟩ st2.maps.length
        (st.get r) rfl hL,
      setKeys_nil_of_nodup (st.get r) hnd]
  · simpa [Store.get, Store.set] using
      listGet_listSet_self (st2.maps ++ [[]]) st2.maps.length (st.get r) hL

/-- Witness for C2 at a two-field instance. -/
theorem jsonRoundTrip_witness :
    (⟨some 0, none⟩ : Problem).data = some 0 ∧
    (((⟨[[("title", GoVal.vstr "a"), ("status", GoVal.vint 404)]]⟩ : Store).get 0).map
        Prod.fst).Nodup ∧
    (New [] ⟨[]⟩ = .ok (⟨some 0, none⟩, ⟨[[]]⟩) ∧
     Problem.UnmarshalJSON (some ⟨some 0, none⟩) ⟨[[]]⟩
         (Problem.JSON (some ⟨some 0, none⟩)
           ⟨[[("title", GoVal.vstr "a"), ("status", GoVal.vint 404)]]⟩)
       = (some ⟨some 0, none⟩,
          (Store.mk [[]]).set 0
            ((⟨[[("title", GoVal.vstr "a"), ("status", GoVal.vint 404)]]⟩ : Store).get 0),
          none) ∧
     ((Store.mk [[]]).set 0
          ((⟨[[("title", GoVal.vstr "a"), ("status", GoVal.vint 404)]]⟩ : Store).get 0)).get 0
       = (⟨[[("title", GoVal.vstr "a"), ("status", GoVal.vint 404)]]⟩ : Store).get 0) :=
  ⟨rfl, by decide,
    jsonRoundTrip ⟨some 0, none⟩ ⟨[[("title", GoVal.vstr "a"), ("status", GoVal.vint 404)]]⟩
      0 ⟨[]⟩ rfl (by decide)⟩

/-! Lemmas and theorems about wrapping, nil-reads and `Data`. -/

/-- C4: on an instance with no `cause` field, `Wrap(err)` makes `Unwrap`
return `err` while `Get("cause")` still reports absent, and `WrapPublic(err)`
makes `Unwrap` return `err` and `Get("cause")` return the text of
`err.Error()`. -/
theorem wrapSemantics (p : Problem) (st : Store) (e : GoError)
    (hwf : wfRef (some p) st = true)
    (habs : Problem.Get (some p) st "cause" = none) :
    (applyOpt (.wrap (some e)) p st).toOption.map
        (fun q => (Problem.Unwrap (some q.1), Problem.Get (some q.1) q.2 "cause"))
      = some (some e, none) ∧
    (applyOpt (.wrapPublic (some e)) p st).toOption.map
        (fun q => (Problem.Unwrap (some q.1), Problem.Get (some q.1) q.2 "cause"))
      = some (some e, some (.vstr e.msg)) := by
  constructor
  · cases hpd : p.data with
    | none =>
      simp [applyOpt, Except.toOption, Option.map, Problem.Unwrap, Problem.Get, hpd]
    | some r =>
      have hg := habs
      simp only [Problem.Get, hpd] at hg
      simp [applyOpt, Except.toOption, Option.map, Problem.Unwrap, Problem.Get, hpd, hg]
  · cases hpd : p.data with
    | none =>
      have hens : ensureMap ⟨none, some e⟩ st
          = (⟨some st.maps.length, some e⟩, ⟨st.maps ++ [[]]⟩, st.maps.length) := by
        simp [ensureMap]
      have hget0 : (Store.mk (st.maps ++ [[]])).get st.maps.length = [] := by
        simpa [Store.get] using listGet_append_len st.maps []
      have hsetapp : (Store.mk (st.maps ++ [[]])).set st.maps.length
            (setKey [] "cause" (.vstr e.msg))
          = ⟨st.maps ++ [setKey [] "cause" (.vstr e.msg)]⟩ := by
        simpa [Store.set] using listSet_append_len st.maps [] (setKey [] "cause" (.vstr e.msg))
      have hgetm : (Store.mk (st.maps ++ [setKey [] "cause" (GoVal.vstr e.msg)])).get
            st.maps.length
          = setKey [] "cause" (.vstr e.msg) := by
        simpa [Store.get] using listGet_append_len st.maps (setKey [] "cause" (.vstr e.msg))
      simp [applyOpt, setField, hpd, hens, hget0, hsetapp, Except.toOption, Option.map,
        Problem.Unwrap, Problem.Get, hgetm, lookupKey_setKey_self]
    | some r =>
      have hr : r < st.maps.length := by simpa [wfRef, hpd] using hwf
      have hens : ensureMap ⟨some r, some e⟩ st = (⟨some r, some e⟩, st, r) := by
        simp [ensureMap]
      have hgetm : (st.set r (setKey (st.get r) "cause" (GoVal.vstr e.msg))).get r
          = setKey (st.get r) "cause" (.vstr e.msg) := by
        simpa [Store.get, Store.set] using
          listGet_listSet_self st.maps r (setKey (st.get r) "cause" (GoVal.vstr e.msg)) hr
      simp [applyOpt, setField, hpd, hens, Except.toOption, Option.map, Problem.Unwrap,
        Problem.Get, hgetm, lookupKey_setKey_self]

/-- Witness for C4 on a fresh one-map instance with no `cause` field. -/
theorem wrapSemantics_witness :
    wfRef (some ⟨some 0, none⟩) ⟨[[]]⟩ = true ∧
    Problem.Get (some ⟨some 0, none⟩) ⟨[[]]⟩ "cause" = none ∧
    ((applyOpt (.wrap (some (.base 7 "boom"))) ⟨some 0, none⟩ ⟨[[]]⟩).toOption.map
        (fun q => (Problem.Unwrap (some q.1), Problem.Get (some q.1) q.2 "cause"))
      = some (some (.base 7 "boom"), none) ∧
     (applyOpt (.wrapPublic (some (.base 7 "boom"))) ⟨some 0, none⟩ ⟨[[]]⟩).toOption.map
        (fun q => (Problem.Unwrap (some q.1), Problem.Get (some q.1) q.2 "cause"))
      = some (some (.base 7 "boom"), some (.vstr (GoError.base 7 "boom").msg))) :=
  ⟨by decide, by decide,
    wrapSemantics ⟨some 0, none⟩ ⟨[[]]⟩ (.base 7 "boom") (by decide) (by decide)⟩

/-- C5: every read on a nil instance reference is total and returns the
specified default: `Get` reports absent, `Data` yields an empty (never
absent) map, the marshal path yields the literal `null` for a nil instance
and an empty object when only the field map is nil, and `Error` returns the
corresponding JSON text. -/
theorem nilReadsSafe (st : Store) (k : String) (c : Option GoError) :
    Problem.Get none st k = none ∧
    (Problem.Data none st).2.get (Problem.Data none st).1 = [] ∧
    Problem.MarshalJSON none st = (.null, none) ∧
    Problem.MarshalJSON (some ⟨none, c⟩) st = (.obj [], none) ∧
    Problem.JSON none st = .null ∧
    Problem.Error none st = "null" ∧
    Problem.Error (some ⟨none, c⟩) st = "\x7b\x7d" := by
  refine ⟨rfl, ?_, rfl, rfl, rfl, rfl, ?_⟩
  · simpa [Problem.Data, Store.get] using listGet_append_len st.maps []
  · show render (JBytes.obj []) = "\x7b\x7d"
    decide

/-- C7: `Data` returns an independent copy of the field map: the returned
map has the same contents (empty, never absent, when the instance or its
map is nil), and overwriting the returned map leaves `Get`, `JSON` and
later `Data` calls on the source instance unchanged. -/
theorem dataIndependentCopy (p : Option Problem) (st : Store) (mw : FieldMap) (k : String)
    (hwf : wfRef p st = true) :
    (Problem.Data p st).2.get (Problem.Data p st).1
        = (match p with
           | none => []
           | some q =>
             match q.data with
             | none => []
             | some r => st.get r) ∧
    Problem.Get p ((Problem.Data p st).2.set (Problem.Data p st).1 mw) k
      = Problem.Get p st k ∧
    Problem.JSON p ((Problem.Data p st).2.set (Problem.Data p st).1 mw)
      = Problem.JSON p st ∧
    (Problem.Data p ((Problem.Data p st).2.set (Problem.Data p st).1 mw)).2.get
        (Problem.Data p ((Problem.Data p st).2.set (Problem.Data p st).1 mw)).1
      = (Problem.Data p st).2.get (Problem.Data p st).1 := by
  have hgetlen : ∀ (l : List FieldMap) (a : FieldMap),
      (Store.mk (l ++ [a])).get l.length = a := fun l a => by
    simpa [Store.get] using listGet_append_len l a
  have hsetlen : ∀ (l : List FieldMap) (a b : FieldMap),
      (Store.mk (l ++ [a])).set l.length b = ⟨l ++ [b]⟩ := fun l a b => by
    simpa [Store.set] using listSet_append_len l a b
  cases p with
  | none =>
    refine ⟨by simp [Problem.Data, hgetlen], rfl, rfl, ?_⟩
    simp only [Problem.Data]
    rw [hsetlen st.maps [] mw, hgetlen (st.maps ++ [mw]) [], hgetlen st.maps []]
  | some q =>
    cases hqd : q.data with
    | none =>
      refine ⟨by simp [Problem.Data, hqd, hgetlen], by simp [Problem.Get, hqd],
        by simp [Problem.JSON, Problem.MarshalJSON, hqd], ?_⟩
      simp only [Problem.Data, hqd]
      rw [hsetlen st.maps [] mw, hgetlen (st.maps ++ [mw]) [], hgetlen st.maps []]
    | some r =>
      have hr : r < st.maps.length := by simpa [wfRef, hqd] using hwf
      have hgetlt : ∀ (a : FieldMap), (Store.mk (st.maps ++ [a])).get r = st.get r :=
        fun a => by simpa [Store.get] using listGet_append_lt st.maps a r hr
      refine ⟨by simp [Problem.Data, hqd, hgetlen], ?_, ?_, ?_⟩
      · simp only [Problem.Data, hqd, Problem.Get]
        rw [hsetlen st.maps (st.get r) mw, hgetlt mw]
      · simp only [Problem.Data, hqd, Problem.JSON, Problem.MarshalJSON]
        rw [hsetlen st.maps (st.get r) mw, hgetlt mw]
      · simp only [Problem.Data, hqd]
        rw [hsetlen st.maps (st.get r) mw, hgetlt mw,
          hgetlen (st.maps ++ [mw]) (st.get r), hgetlen st.maps (st.get r)]

/-- Witness for C7 on a one-field instance, overwriting the copy. -/
theorem dataIndependentCopy_witness :
    wfRef (some ⟨some 0, none⟩) ⟨[[("title", GoVal.vstr "a")]]⟩ = true ∧
    ((Problem.Data (some ⟨some 0, none⟩) ⟨[[("title", GoVal.vstr "a")]]⟩).2.get
        (Problem.Data (some ⟨some 0, none⟩) ⟨[[("title", GoVal.vstr "a")]]⟩).1
      = (⟨[[("title", GoVal.vstr "a")]]⟩ : Store).get 0 ∧
     Problem.Get (some ⟨some 0, none⟩)
        ((Problem.Data (some ⟨some 0, none⟩) ⟨[[("title", GoVal.vstr "a")]]⟩).2.set
          (Problem.Data (some ⟨some 0, none⟩) ⟨[[("title", GoVal.vstr "a")]]⟩).1
          [("title", GoVal.vstr "hacked")]) "title"
      = Problem.Get (some ⟨some 0, none⟩) ⟨[[("title", GoVal.vstr "a")]]⟩ "title") := by
  refine ⟨by decide, ?_, ?_⟩
  · exact (dataIndependentCopy (some ⟨some 0, none⟩) ⟨[[("title", GoVal.vstr "a")]]⟩
      [("title", GoVal.vstr "hacked")] "title" (by decide)).1
  · exact (dataIndependentCopy (some ⟨some 0, none⟩) ⟨[[("title", GoVal.vstr "a")]]⟩
      [("title", GoVal.vstr "hacked")] "title" (by decide)).2.1

/-! Theorems about HTTP emission, `Is`, and the nil-error fault. -/

/-- C3: `WriteTo` is `write` with fallback 500; `write` sets the content
type, writes exactly one status line whose code is the integer `status`
field if present, else the fallback, else 500 when the fallback is zero,
then writes a body equal to `JSON()`, returning the sink's byte count and
propagating any sink write error. -/
theorem writeToSemantics (p : Option Problem) (st : Store) (w : Sink) (fb : Int) :
    Problem.WriteTo p st w = Problem.write p st w 500 ∧
    (Problem.write p st w fb).1.headers = setHeaderList w.headers "Content-Type" MediaType ∧
    (Problem.write p st w fb).1.codes
      = w.codes ++ [match Problem.Get p st "status" with
                    | some (.vint n) => n
                    | _ => if fb = 0 then 500 else fb] ∧
    (match w.failWrite with
     | none =>
        (Problem.write p st w fb).1.body = w.body ++ [Problem.JSON p st] ∧
        (Problem.write p st w fb).2.1 = (render (Problem.JSON p st)).length ∧
        (Problem.write p st w fb).2.2 = none
     | some err =>
        (Problem.write p st w fb).1.body = w.body ∧
        (Problem.write p st w fb).2.1 = 0 ∧
        (Problem.write p st w fb).2.2 = some err) := by
  refine ⟨rfl, ?_⟩
  cases p with
  | none =>
    cases hfw : w.failWrite <;>
      simp [Problem.write, Problem.Get, Sink.setHeader, Sink.writeHeader, Sink.writeBody, hfw]
  | some q =>
    cases hqd : q.data with
    | none =>
      cases hfw : w.failWrite <;>
        simp [Problem.write, Problem.Get, Sink.setHeader, Sink.writeHeader, Sink.writeBody,
          hfw, hqd]
    | some r =>
      cases hlk : lookupKey (st.get r) "status" with
      | none =>
        cases hfw : w.failWrite <;>
          simp [Problem.write, Problem.Get, Sink.setHeader, Sink.writeHeader, Sink.writeBody,
            hfw, hqd, hlk]
      | some v =>
        cases v <;> cases hfw : w.failWrite <;>
          simp [Problem.write, Problem.Get, Sink.setHeader, Sink.writeHeader, Sink.writeBody,
            hfw, hqd, hlk]

/-- C8: `WriteHeaderTo` sets the content type to the problem media type and
writes a status line (namely the integer value) exactly when a `status`
field is present and holds an integer; it never touches the body or the
sink's failure mode. -/
theorem writeHeaderToSemantics (p : Option Problem) (st : Store) (w : Sink) :
    (Problem.WriteHeaderTo p st w).headers
      = setHeaderList w.headers "Content-Type" MediaType ∧
    (Problem.WriteHeaderTo p st w).codes
      = w.codes ++ (match Problem.Get p st "status" with
                    | some v => if (asStatusCode v).2 then [(asStatusCode v).1] else []
                    | none => []) ∧
    (Problem.WriteHeaderTo p st w).body = w.body ∧
    (Problem.WriteHeaderTo p st w).failWrite = w.failWrite := by
  cases p with
  | none => simp [Problem.WriteHeaderTo, Problem.Get, Sink.setHeader]
  | some q =>
    cases hqd : q.data with
    | none => simp [Problem.WriteHeaderTo, Problem.Get, Sink.setHeader, hqd]
    | some r =>
      cases hlk : lookupKey (st.get r) "status" with
      | none =>
        simp [Problem.WriteHeaderTo, Problem.Get, Sink.setHeader, Sink.writeHeader, hqd, hlk]
      | some v =>
        cases v <;>
          simp [Problem.WriteHeaderTo, Problem.Get, Sink.setHeader, Sink.writeHeader,
            asStatusCode, hqd, hlk]

theorem chainIs_eq (c t : GoError) : chainIs c t = decide (t ∈ chain c) := by
  induction c with
  | base i m =>
    by_cases h : t = .base i m
    · subst h
      simp [chainIs, chain]
    · simp [chainIs, chain, beq_iff_eq, h, Ne.symm h]
  | wrapped i m c ih =>
    by_cases h : t = .wrapped i m c
    · subst h
      simp [chainIs, chain]
    · simp [chainIs, chain, beq_iff_eq, h, Ne.symm h, ih]

/-- C9: `Is(target)` on a nil instance is true exactly when the target is
nil; on a live instance it is `errors.Is` of the wrapped cause against the
target, i.e. membership of the target in the cause's unwrap chain (with the
nil/nil convention of `errors.Is`). -/
theorem isSemantics (p : Option Problem) (t : Option GoError) :
    Problem.Is p t
      = (match p, t with
         | none, t0 => decide (t0 = none)
         | some q, none => decide (q.cause = none)
         | some q, some t0 =>
             match q.cause with
             | none => false
             | some c => decide (t0 ∈ chain c)) := by
  cases p with
  | none => rfl
  | some q =>
    cases t with
    | none => cases hc : q.cause <;> simp [Problem.Is, errorsIs, hc]
    | some t0 =>
      cases hc : q.cause with
      | none => simp [Problem.Is, errorsIs, hc]
      | some c => simp [Problem.Is, errorsIs, hc, chainIs_eq]

/-- C10: applying `WrapPublic(nil)` faults (nil method call on the error),
while `Wrap(nil)` succeeds and merely clears the cause, and `WrapPublic`
with a non-nil error succeeds. -/
theorem wrapPublicNilPanics (p : Problem) (st : Store) (e : GoError) :
    applyOpt (.wrapPublic none) p st = .error .nilErrorMethod ∧
    applyOpt (.wrap none) p st = .ok ({ p with cause := none }, st) ∧
    (applyOpt (.wrapPublic (some e)) p st).toOption.isSome = true := by
  refine ⟨rfl, rfl, ?_⟩
  simp [applyOpt, Except.toOption]

end Problems
